import Mathlib

/-!
Verification of the block-prefetch pipeline (BlockCache) and the retrying
JSON-RPC client (RPC) of src/server/server.py, as a shallow embedding.

Conventions of the embedding:
* Machine integers are Int (Python ints are unbounded); byte sizes and list
  lengths are Nat.
* A JSON-RPC sub-response is a pair of a result and an optional error object.
  Per the interface description, an error object present in a response carries
  at least a code field, so a present error object is a non-empty dict and
  hence truthy; the result of err.get with key code is an optional Int.
* Network calls are replaced by oracles: the daemon tip height is a plain Int
  argument, and the two batch calls (getblockhash then getblock) compose to a
  function from height to the byte length of the raw block at that height,
  since the cache only ever uses the length of a fetched block.
* Each await is a suspension point; the state visible to other tasks while a
  call is in flight is recorded explicitly where a claim needs it.
-/

namespace SMServer

/-! ## RPC layer: rpc_multi (server.py lines 160-178) -/

/-- Error object of a JSON-RPC sub-response: a non-empty dict carrying at
least a code field; the code field may in general be absent, so reading it
yields an optional Int. -/
structure ErrObj where
  code : Option Int
deriving DecidableEq

/-- One element of a batch response: a result field and an error field that
is either null (None) or an error object. -/
structure DResult (α : Type) where
  result : α
  error : Option ErrObj
deriving DecidableEq

/-- Outcome of one pass of the retry loop body in rpc_multi:
return the results, sleep a number of seconds and resend the same payload,
or abort with an uncaught AttributeError. -/
inductive RpcOutcome (α : Type) where
  | done : List α → RpcOutcome α
  | retry : Nat → RpcOutcome α
  | crash : RpcOutcome α
deriving DecidableEq

/-- Result of the for-loop over the error fields in rpc_multi
(lines 168-175).  The loop walks the error list in order: calling get on a
null error raises AttributeError; finding code -28 breaks out with the
warm-up backoff; falling off the end (the else clause of the for) selects
the immediate retry. -/
inductive ErrScan where
  | attrError
  | warmup
  | other
deriving DecidableEq

def scanErrs : List (Option ErrObj) → ErrScan
  | [] => .other
  | none :: _ => .attrError
  | some e :: rest => if e.code = some (-28) then .warmup else scanErrs rest

/-- One iteration of the while-True loop of RPC.rpc_multi (lines 163-178),
applied to the decoded batch response.  If no error field is truthy, the
result fields are returned in response order; otherwise the error fields are
scanned in order as the source for-loop does. -/
def rpc_multi_step {α : Type} (dresults : List (DResult α)) : RpcOutcome α :=
  if dresults.all (fun d => d.error.isNone) then
    .done (dresults.map (fun d => d.result))
  else
    match scanErrs (dresults.map (fun d => d.error)) with
    | .attrError => .crash
    | .warmup => .retry 10
    | .other => .retry 0

/-! ## RPC layer: daemon (server.py lines 200-211) -/

/-- One run of the while-True loop of RPC.daemon, observed for at most
fuel attempts.  The transport is an oracle from the attempt index to an
optional parsed response; a failed attempt (an aiohttp exception) is logged
and followed by a one-second sleep, after which the very same payload is
resent.  The returned pair carries the parsed response together with the
number of failed attempts, which equals the number of one-second backoffs
slept.  Exhausting the observation horizon (none) means the call has not
returned within fuel attempts. -/
def daemonFrom {ρ : Type} (attempts : Nat → Option ρ) : Nat → Nat → Option (ρ × Nat)
  | _, 0 => none
  | k, fuel + 1 =>
    match attempts k with
    | some r => some (r, k)
    | none => daemonFrom attempts (k + 1) fuel

/-- RPC.daemon applied to a fixed payload: every attempt resends the same
payload through the transport oracle. -/
def daemonRun {π ρ : Type} (transport : π → Nat → Option ρ) (payload : π)
    (fuel : Nat) : Option (ρ × Nat) :=
  daemonFrom (transport payload) 0 fuel

/-! ## BlockCache state (server.py lines 36-50) -/

/-- Cache byte limit: self.cache_limit is 10 (MB), compared against bytes as
cache_limit * 1024 * 1024 (line 107). -/
def cacheLimitBytes : Nat := 10 * 1024 * 1024

/-- State of a BlockCache instance, plus two ghost histories: the heights
handed to db.process_block in call order, and the number of db.flush calls.
A buffered block is recorded as its height paired with its byte length
(the cache only uses the length of the raw block; the height is the ghost
annotation giving which block occupies which slot).  Blocks are stored in
reverse height order: the next block to process is at the end of the list. -/
structure CacheState where
  stop : Bool
  daemon_height : Int
  fetched_height : Int
  blocks : List (Int × Nat)
  recent_sizes : List Nat
  ave_size : Nat
  processed : List Int
  flushes : Nat
deriving DecidableEq

/-- Initial state built by BlockCache.__init__ from the db height. -/
def initState (h0 : Int) : CacheState :=
  { stop := false
    daemon_height := 0
    fetched_height := h0
    blocks := []
    recent_sizes := []
    ave_size := 0
    processed := []
    flushes := 0 }

/-- cache_used (line 95-96): sum of the byte lengths of the buffered blocks. -/
def cacheUsed (s : CacheState) : Nat := (s.blocks.map Prod.snd).sum

/-- prefill_count (lines 98-102): count starts at 0; when ave_size is
non-zero (truthy) it becomes room // ave_size; the result is
max(count, 10). -/
def prefill_count (ave_size room : Nat) : Nat :=
  let count := if ave_size ≠ 0 then room / ave_size else 0
  max count 10

/-- Fetch count of one prefill iteration (lines 117-119):
max_count = min(daemon_height - fetched_height, 4000) and
count = min(max_count, prefill_count(cache_limit)).  Note the source passes
the full byte limit cache_limit to prefill_count. -/
def iterCount (fetched_height dh : Int) (ave_size : Nat) : Int :=
  let max_count := min (dh - fetched_height) 4000
  min max_count (prefill_count ave_size cacheLimitBytes : Int)

/-- Round count formula exactly as the specification words it: the argument
given to prefill_count is the remaining room, the cache byte limit minus the
current buffer occupancy.  To be compared with iterCount, which embeds the
source computation. -/
def specRoundCount (dh fh : Int) (ave occupancy : Nat) : Int :=
  min (dh - fh) (min 4000 (prefill_count ave (cacheLimitBytes - occupancy) : Int))

/-- Heights requested by one round (line 124): range(first, first + count)
with first = fetched_height + 1; empty when count is not positive. -/
def intRange : Int → Nat → List Int
  | _, 0 => []
  | a, n + 1 => a :: intRange (a + 1) n

def fetchHeights (fetched_height count : Int) : List Int :=
  intRange (fetched_height + 1) count.toNat

/-- Size-window update of one round (lines 145-148): extend the window with
the new sizes, then drop the excess from the front when the window exceeds
50 entries. -/
def updateSizes (recent sizes : List Nat) : List Nat :=
  let r := recent ++ sizes
  let excess := r.length - 50
  if excess > 0 then r.drop excess else r

/-- Suffix holding the most recent 50 entries of a list (the whole list when
it is shorter); the shape the specification ascribes to the size window. -/
def lastFifty (l : List Nat) : List Nat := l.drop (l.length - 50)

/-- Outcome of one iteration of the while-True loop inside maybe_prefill:
stopLoop is return False (stop requested, or caught up), wait is return True
with nothing fetched (cache over its limit), next is one completed fetch
round after which the inner loop continues, and crash is the
ZeroDivisionError of line 149 raised with the state as mutated up to that
point. -/
inductive PrefillResult where
  | stopLoop
  | wait
  | next (s : CacheState)
  | crash (s : CacheState)
deriving DecidableEq

/-- One iteration of the loop body of BlockCache.maybe_prefill
(lines 108-149).  dh is the getblockcount response; bs maps a height to the
byte length of the raw block fetched for it.  Following the source order:
stop check; cache_used check; refresh daemon_height; compute count; the
count-or-stop guard (which only fires on a count of exactly zero); request
hashes for range(first, first + count); request the blocks; advance
fetched_height by count; prepend the reversed batch; extend and trim the
size window; recompute ave_size as an integer-truncated mean, which raises
ZeroDivisionError when the window is empty. -/
def maybePrefillIter (s : CacheState) (dh : Int) (bs : Int → Nat) : PrefillResult :=
  if s.stop then .stopLoop
  else if cacheUsed s > cacheLimitBytes then .wait
  else
    let s1 : CacheState := { s with daemon_height := dh }
    let count := iterCount s1.fetched_height dh s1.ave_size
    if count = 0 ∨ s1.stop then .stopLoop
    else
      let heights := fetchHeights s1.fetched_height count
      let sizes := heights.map bs
      let s2 : CacheState := { s1 with fetched_height := s1.fetched_height + count }
      let blocks2 := (heights.zip sizes).reverse ++ s2.blocks
      let recent2 := updateSizes s2.recent_sizes sizes
      if recent2 = [] then
        .crash { s2 with blocks := blocks2, recent_sizes := recent2 }
      else
        .next { s2 with blocks := blocks2, recent_sizes := recent2,
                        ave_size := recent2.sum / recent2.length }

/-- Suspension points of one maybe_prefill iteration at which another task
may run while the call is in flight. -/
inductive Await where
  | getblockcount
  | hashBatch
  | blockBatch
deriving DecidableEq

/-- Awaited calls issued by one iteration of maybe_prefill, each paired with
the cache state visible to a concurrent task while that call is in flight
(the state after every assignment preceding the await in the source).
Between the hash batch (line 125) and the block batch (line 132) only local
bindings change, and fetched_height += count stands at line 133, after the
block batch resolves; so the state in flight during both batch calls has
the pre-round fetched_height. -/
def maybePrefillAwaits (s : CacheState) (dh : Int) :
    List (Await × CacheState) :=
  if s.stop then []
  else if cacheUsed s > cacheLimitBytes then []
  else
    (Await.getblockcount, s) ::
      (let s1 : CacheState := { s with daemon_height := dh }
       let count := iterCount s1.fetched_height dh s1.ave_size
       if count = 0 ∨ s1.stop then []
       else [(Await.hashBatch, s1), (Await.blockBatch, s1)])

/-! ## Interleaved operations of producer, consumer and signal handler -/

/-- on_signal (lines 57-61): empty the buffer and set the stop flag. -/
def onSignal (s : CacheState) : CacheState :=
  { s with blocks := [], stop := true }

/-- One pop of the consumer inner loop (lines 66-67): when the buffer is
non-empty, remove the block at the end of the list (the lowest pending
height) and hand it to db.process_block. -/
def popStep (s : CacheState) : CacheState :=
  match s.blocks.getLast? with
  | none => s
  | some b => { s with blocks := s.blocks.dropLast,
                       processed := s.processed ++ [b.1] }

/-- db.flush (line 71), with the ghost counter recording the call. -/
def flushS (s : CacheState) : CacheState := { s with flushes := s.flushes + 1 }

/-- Atomic steps of the interleaving: one producer fetch iteration (with its
daemon oracles), one consumer pop, or the signal handler. -/
inductive Op where
  | fetch (dh : Int) (bs : Int → Nat)
  | pop
  | signal

/-- Effect of one operation on the cache state.  A fetch iteration that
returns False or True leaves the state unchanged; one that completes a round
or dies in the ZeroDivisionError leaves the state as mutated. -/
def stepOp (s : CacheState) : Op → CacheState
  | .fetch dh bs =>
    match maybePrefillIter s dh bs with
    | .next s2 => s2
    | .crash s2 => s2
    | _ => s
  | .pop => popStep s
  | .signal => onSignal s

def run (s : CacheState) (ops : List Op) : CacheState := ops.foldl stepOp s

/-! ## Consumer loop: process_cache (server.py lines 63-71) -/

/-- Inner drain loop of process_cache (lines 66-69): pop the block at the
end of the list and hand it to db.process_block, until the buffer is empty.
Handing out from the end of the reverse-ordered list delivers the buffered
heights in reverse list order. -/
def drainAll (s : CacheState) : CacheState :=
  { s with blocks := [],
           processed := s.processed ++ (s.blocks.map Prod.fst).reverse }

/-- BlockCache.process_cache (lines 63-71), observed for as many outer
iterations as the schedule has entries.  Each entry of the schedule says
whether the signal handler fires during the one-second sleep of that
iteration.  The loop checks the stop flag, sleeps (where the signal may
arrive), drains the buffer, and repeats; when the flag is observed set, the
loop exits and db.flush is called exactly once, after the loop body.  A
none result means the loop is still running when the schedule runs out. -/
def consumerRun : List Bool → CacheState → Option CacheState
  | [], s => if s.stop then some (flushS s) else none
  | sig :: rest, s =>
    if s.stop then some (flushS s)
    else consumerRun rest (drainAll (if sig then onSignal s else s))

/-- Side condition under which the specification states the buffer
invariant: each fetch round observes a daemon tip at or above the current
fetched_height (newly fetched batches are always higher than anything
currently cached).  Checked along the run, state by state. -/
def fetchesAhead : CacheState → List Op → Bool
  | _, [] => true
  | s, op :: rest =>
    (match op with
     | .fetch dh _ => decide (s.fetched_height ≤ dh)
     | _ => true) && fetchesAhead (stepOp s op) rest

/-- Total byte size of the batch that one fetch round started from state s
against daemon tip dh would add to the buffer. -/
def fetchBatchBytes (s : CacheState) (dh : Int) (bs : Int → Nat) : Nat :=
  ((fetchHeights s.fetched_height
      (iterCount s.fetched_height dh s.ave_size)).map bs).sum

/-- Checked along a run, state by state: every fetch round adds a batch of
at most B bytes. -/
def batchesBounded (B : Nat) : CacheState → List Op → Bool
  | _, [] => true
  | s, op :: rest =>
    (match op with
     | .fetch dh bs => decide (fetchBatchBytes s dh bs ≤ B)
     | _ => true) && batchesBounded B (stepOp s op) rest

/-- Buffer invariant: the heights handed to the processor are the
consecutive ascending range starting just above the initial height; the
buffered heights are a consecutive strictly descending range whose head is
fetched_height; while running, the buffer tail sits exactly on top of the
processed range; and once the stop flag is set the buffer is empty. -/
def BufInv (h0 : Int) (s : CacheState) : Prop :=
  s.processed = intRange (h0 + 1) s.processed.length ∧
  s.blocks.map Prod.fst =
    (intRange (s.fetched_height - s.blocks.length + 1) s.blocks.length).reverse ∧
  (s.stop = false →
    s.fetched_height = h0 + s.processed.length + s.blocks.length) ∧
  (s.stop = true → s.blocks = [])

/-! ## Helper lemmas -/

theorem length_intRange (a : Int) (n : Nat) : (intRange a n).length = n := by
  induction n generalizing a with
  | zero => rfl
  | succ m ih => simp [intRange, ih]

theorem intRange_append (a : Int) (m n : Nat) :
    intRange a m ++ intRange (a + m) n = intRange a (m + n) := by
  induction m generalizing a with
  | zero => simp [intRange]
  | succ k ih =>
    rw [Nat.succ_add]
    simp only [intRange, List.cons_append]
    have hc : a + ((k + 1 : Nat) : Int) = (a + 1) + (k : Int) := by push_cast; ring
    rw [hc, ih (a + 1)]

theorem intRange_concat (a : Int) (n : Nat) :
    intRange a (n + 1) = intRange a n ++ [a + n] := by
  induction n generalizing a with
  | zero => simp [intRange]
  | succ k ih =>
    have hc : a + ((k + 1 : Nat) : Int) = (a + 1) + (k : Int) := by push_cast; ring
    calc intRange a (k + 1 + 1) = a :: intRange (a + 1) (k + 1) := rfl
      _ = a :: (intRange (a + 1) k ++ [(a + 1) + (k : Int)]) := by rw [ih (a + 1)]
      _ = (a :: intRange (a + 1) k) ++ [a + ((k + 1 : Nat) : Int)] := by rw [hc]; rfl
      _ = intRange a (k + 1) ++ [a + ((k + 1 : Nat) : Int)] := rfl

theorem getLast?_map_fun {α β : Type} (f : α → β) (l : List α) :
    (l.map f).getLast? = l.getLast?.map f := by
  rw [List.getLast?_eq_head?_reverse, List.getLast?_eq_head?_reverse,
    ← List.map_reverse, List.head?_map]

theorem prefill_count_ge_ten (ave room : Nat) : 10 ≤ prefill_count ave room := by
  simp only [prefill_count]
  omega

theorem updateSizes_eq_lastFifty (x b : List Nat) :
    updateSizes x b = lastFifty (x ++ b) := by
  unfold updateSizes lastFifty
  by_cases h : (x ++ b).length - 50 > 0
  · simp only [h, if_pos]
  · simp only [h, if_neg, not_false_iff]
    have h0 : (x ++ b).length - 50 = 0 := by omega
    rw [h0, List.drop_zero]

theorem lastFifty_append_lastFifty (r b : List Nat) :
    lastFifty (lastFifty r ++ b) = lastFifty (r ++ b) := by
  unfold lastFifty
  rw [← List.drop_append_of_le_length (Nat.sub_le r.length 50), List.drop_drop]
  simp only [List.length_drop, List.length_append]
  congr 1
  omega

theorem updateSizes_ne_nil (x b : List Nat) (h : x ++ b ≠ []) :
    updateSizes x b ≠ [] := by
  intro hc
  rw [updateSizes_eq_lastFifty] at hc
  have hlen := congrArg List.length hc
  simp only [lastFifty, List.length_drop, List.length_nil] at hlen
  have h0 : (x ++ b).length = 0 := by omega
  exact h (List.length_eq_zero.mp h0)

theorem foldl_updateSizes (batches : List (List Nat)) :
    ∀ r, batches.foldl updateSizes (lastFifty r) = lastFifty (r ++ batches.flatten) := by
  induction batches with
  | nil => intro r; simp
  | cons b rest ih =>
    intro r
    rw [List.foldl_cons, List.flatten_cons, updateSizes_eq_lastFifty,
      lastFifty_append_lastFifty, ih (r ++ b), List.append_assoc]

theorem maybePrefillIter_round (s : CacheState) (dh : Int) (bs : Int → Nat)
    (hstop : s.stop = false) (hu : ¬ cacheUsed s > cacheLimitBytes)
    (hcz : iterCount s.fetched_height dh s.ave_size ≠ 0) :
    maybePrefillIter s dh bs =
      (if updateSizes s.recent_sizes
          ((fetchHeights s.fetched_height
            (iterCount s.fetched_height dh s.ave_size)).map bs) = [] then
        PrefillResult.crash
          { s with daemon_height := dh,
                   fetched_height := s.fetched_height +
                     iterCount s.fetched_height dh s.ave_size,
                   blocks := ((fetchHeights s.fetched_height
                       (iterCount s.fetched_height dh s.ave_size)).zip
                     ((fetchHeights s.fetched_height
                       (iterCount s.fetched_height dh s.ave_size)).map bs)).reverse ++
                     s.blocks,
                   recent_sizes := updateSizes s.recent_sizes
                     ((fetchHeights s.fetched_height
                       (iterCount s.fetched_height dh s.ave_size)).map bs) }
      else
        PrefillResult.next
          { s with daemon_height := dh,
                   fetched_height := s.fetched_height +
                     iterCount s.fetched_height dh s.ave_size,
                   blocks := ((fetchHeights s.fetched_height
                       (iterCount s.fetched_height dh s.ave_size)).zip
                     ((fetchHeights s.fetched_height
                       (iterCount s.fetched_height dh s.ave_size)).map bs)).reverse ++
                     s.blocks,
                   recent_sizes := updateSizes s.recent_sizes
                     ((fetchHeights s.fetched_height
                       (iterCount s.fetched_height dh s.ave_size)).map bs),
                   ave_size := (updateSizes s.recent_sizes
                       ((fetchHeights s.fetched_height
                         (iterCount s.fetched_height dh s.ave_size)).map bs)).sum /
                     (updateSizes s.recent_sizes
                       ((fetchHeights s.fetched_height
                         (iterCount s.fetched_height dh s.ave_size)).map bs)).length }) := by
  obtain ⟨st, dh0, fh, bl, rs, av, pr, fl⟩ := s
  dsimp only at hstop hu hcz ⊢
  subst hstop
  simp only [maybePrefillIter, Bool.false_eq_true, if_false, hcz, or_false,
    if_neg hu]

theorem maybePrefillIter_stop (s : CacheState) (dh : Int) (bs : Int → Nat)
    (h : s.stop = true) : maybePrefillIter s dh bs = .stopLoop := by
  simp [maybePrefillIter, h]

theorem maybePrefillIter_wait (s : CacheState) (dh : Int) (bs : Int → Nat)
    (hstop : s.stop = false) (hu : cacheUsed s > cacheLimitBytes) :
    maybePrefillIter s dh bs = .wait := by
  simp [maybePrefillIter, hstop, hu]

theorem maybePrefillIter_done (s : CacheState) (dh : Int) (bs : Int → Nat)
    (hstop : s.stop = false) (hu : ¬ cacheUsed s > cacheLimitBytes)
    (hcz : iterCount s.fetched_height dh s.ave_size = 0) :
    maybePrefillIter s dh bs = .stopLoop := by
  obtain ⟨st, dh0, fh, bl, rs, av, pr, fl⟩ := s
  dsimp only at hstop hu hcz ⊢
  subst hstop
  simp [maybePrefillIter, hu, hcz]

theorem bufInv_signal (h0 : Int) (s : CacheState) (h : BufInv h0 s) :
    BufInv h0 (onSignal s) := by
  obtain ⟨h1, _, _, _⟩ := h
  refine ⟨h1, by simp [onSignal, intRange], ?_, fun _ => rfl⟩
  intro hf
  simp [onSignal] at hf

theorem bufInv_pop (h0 : Int) (s : CacheState) (h : BufInv h0 s) :
    BufInv h0 (popStep s) := by
  obtain ⟨h1, h2, h3, h4⟩ := h
  rcases hbl : s.blocks.getLast? with _ | b
  · simp only [popStep, hbl]
    exact ⟨h1, h2, h3, h4⟩
  · have hne : s.blocks ≠ [] := by
      intro hq
      rw [hq] at hbl
      exact Option.noConfusion hbl
    have hstop : s.stop = false := by
      cases hs : s.stop
      · rfl
      · exact absurd (h4 hs) hne
    obtain ⟨m, hm⟩ : ∃ m, s.blocks.length = m + 1 := by
      cases hq : s.blocks.length with
      | zero => exact absurd (List.length_eq_zero.mp hq) hne
      | succ k => exact ⟨k, rfl⟩
    have h2m : s.blocks.map Prod.fst =
        (intRange (s.fetched_height - ((m + 1 : Nat) : Int) + 1 + 1) m).reverse ++
          [s.fetched_height - ((m + 1 : Nat) : Int) + 1] := by
      rw [h2, hm]
      rw [show intRange (s.fetched_height - ((m + 1 : Nat) : Int) + 1) (m + 1) =
          (s.fetched_height - ((m + 1 : Nat) : Int) + 1) ::
            intRange (s.fetched_height - ((m + 1 : Nat) : Int) + 1 + 1) m from rfl,
        List.reverse_cons]
    have hb1 : b.1 = s.fetched_height - ((m + 1 : Nat) : Int) + 1 := by
      have hg := getLast?_map_fun Prod.fst s.blocks
      rw [hbl, h2m, List.getLast?_concat] at hg
      exact (Option.some.injEq _ _).mp hg.symm
    have hfh : s.fetched_height =
        h0 + s.processed.length + s.blocks.length := h3 hstop
    rw [hm] at hfh
    simp only [popStep, hbl]
    refine ⟨?_, ?_, ?_, ?_⟩
    · dsimp only
      rw [List.length_append, List.length_singleton, intRange_concat, ← h1, hb1]
      congr 1
      simp only [List.cons.injEq, and_true]
      omega
    · dsimp only
      rw [List.map_dropLast, h2m, List.dropLast_concat, List.length_dropLast, hm,
        Nat.add_sub_cancel]
      congr 2
      push_cast
      ring
    · intro _
      dsimp only
      rw [List.length_append, List.length_singleton, List.length_dropLast, hm,
        Nat.add_sub_cancel]
      omega
    · intro ht
      dsimp only at ht
      rw [hstop] at ht
      exact Bool.noConfusion ht

theorem bufInv_fetch (h0 : Int) (s : CacheState) (dh : Int) (bs : Int → Nat)
    (h : BufInv h0 s) (hdh : s.fetched_height ≤ dh) :
    BufInv h0 (stepOp s (Op.fetch dh bs)) := by
  obtain ⟨h1, h2, h3, h4⟩ := h
  by_cases hst : s.stop = true
  · have hs1 : stepOp s (Op.fetch dh bs) = s := by
      simp only [stepOp, maybePrefillIter_stop s dh bs hst]
    rw [hs1]
    exact ⟨h1, h2, h3, h4⟩
  · have hstop : s.stop = false := by
      cases hs2 : s.stop
      · rfl
      · exact absurd hs2 hst
    by_cases hu : cacheUsed s > cacheLimitBytes
    · have hs1 : stepOp s (Op.fetch dh bs) = s := by
        simp only [stepOp, maybePrefillIter_wait s dh bs hstop hu]
      rw [hs1]
      exact ⟨h1, h2, h3, h4⟩
    · by_cases hcz : iterCount s.fetched_height dh s.ave_size = 0
      · have hs1 : stepOp s (Op.fetch dh bs) = s := by
          simp only [stepOp, maybePrefillIter_done s dh bs hstop hu hcz]
        rw [hs1]
        exact ⟨h1, h2, h3, h4⟩
      · have h10 : (10 : Int) ≤ (prefill_count s.ave_size cacheLimitBytes : Int) := by
          exact_mod_cast prefill_count_ge_ten s.ave_size cacheLimitBytes
        have hc0 : 0 < iterCount s.fetched_height dh s.ave_size := by
          simp only [iterCount] at hcz ⊢
          omega
        have hcast : (((iterCount s.fetched_height dh s.ave_size).toNat : Nat) : Int) =
            iterCount s.fetched_height dh s.ave_size :=
          Int.toNat_of_nonneg (le_of_lt hc0)
        have hlen : (fetchHeights s.fetched_height
            (iterCount s.fetched_height dh s.ave_size)).length =
            (iterCount s.fetched_height dh s.ave_size).toNat := by
          rw [fetchHeights, length_intRange]
        have hhne : fetchHeights s.fetched_height
            (iterCount s.fetched_height dh s.ave_size) ≠ [] := by
          intro hq
          rw [hq] at hlen
          simp only [List.length_nil] at hlen
          omega
        have hne : updateSizes s.recent_sizes
            ((fetchHeights s.fetched_height
              (iterCount s.fetched_height dh s.ave_size)).map bs) ≠ [] := by
          apply updateSizes_ne_nil
          simp [hhne]
        simp only [stepOp, maybePrefillIter_round s dh bs hstop hu hcz, if_neg hne]
        have hzip : ((fetchHeights s.fetched_height
              (iterCount s.fetched_height dh s.ave_size)).zip
            ((fetchHeights s.fetched_height
              (iterCount s.fetched_height dh s.ave_size)).map bs)).map Prod.fst =
            fetchHeights s.fetched_height (iterCount s.fetched_height dh s.ave_size) :=
          List.map_fst_zip _ _ (by rw [List.length_map])
        have hL : (((fetchHeights s.fetched_height
              (iterCount s.fetched_height dh s.ave_size)).zip
            ((fetchHeights s.fetched_height
              (iterCount s.fetched_height dh s.ave_size)).map bs)).reverse ++
              s.blocks).length =
            (iterCount s.fetched_height dh s.ave_size).toNat + s.blocks.length := by
          simp [List.length_zip, List.length_map, hlen]
        refine ⟨h1, ?_, ?_, ?_⟩
        · dsimp only
          rw [List.map_append, List.map_reverse, hzip, hL, h2, ← List.reverse_append]
          congr 1
          calc intRange (s.fetched_height - s.blocks.length + 1) s.blocks.length ++
                fetchHeights s.fetched_height (iterCount s.fetched_height dh s.ave_size)
              = intRange (s.fetched_height - s.blocks.length + 1) s.blocks.length ++
                intRange ((s.fetched_height - s.blocks.length + 1) + s.blocks.length)
                  (iterCount s.fetched_height dh s.ave_size).toNat := by
                rw [fetchHeights, show (s.fetched_height - (s.blocks.length : Int) + 1) +
                  (s.blocks.length : Int) = s.fetched_height + 1 by ring]
            _ = intRange (s.fetched_height - s.blocks.length + 1)
                  (s.blocks.length + (iterCount s.fetched_height dh s.ave_size).toNat) :=
                intRange_append _ _ _
            _ = intRange (s.fetched_height + iterCount s.fetched_height dh s.ave_size -
                  ((iterCount s.fetched_height dh s.ave_size).toNat + s.blocks.length) + 1)
                  ((iterCount s.fetched_height dh s.ave_size).toNat + s.blocks.length) := by
                rw [Nat.add_comm]
                congr 1
                push_cast [hcast]
                ring
        · intro _
          dsimp only
          rw [hL]
          have hfh := h3 hstop
          push_cast [hcast]
          omega
        · intro ht
          dsimp only at ht
          rw [hstop] at ht
          exact Bool.noConfusion ht

theorem bufInv_run (h0 : Int) :
    ∀ (ops : List Op) (s : CacheState),
      BufInv h0 s → fetchesAhead s ops = true → BufInv h0 (run s ops) := by
  intro ops
  induction ops with
  | nil => intro s h _; exact h
  | cons op rest ih =>
    intro s h hf
    cases op with
    | fetch dh bs =>
      simp only [fetchesAhead, Bool.and_eq_true] at hf
      exact ih _ (bufInv_fetch h0 s dh bs h (by exact_mod_cast of_decide_eq_true hf.1))
        hf.2
    | pop =>
      simp only [fetchesAhead, Bool.and_eq_true, true_and] at hf
      exact ih _ (bufInv_pop h0 s h) hf
    | signal =>
      simp only [fetchesAhead, Bool.and_eq_true, true_and] at hf
      exact ih _ (bufInv_signal h0 s h) hf

theorem cacheUsed_pop_le (s : CacheState) : cacheUsed (popStep s) ≤ cacheUsed s := by
  rcases hbl : s.blocks.getLast? with _ | b
  · simp [popStep, hbl]
  · simp only [popStep, hbl, cacheUsed]
    exact List.Sublist.sum_le_sum
      (List.Sublist.map Prod.snd (List.dropLast_sublist s.blocks))
      (fun a _ => Nat.zero_le a)

theorem cacheUsed_fetch_round (s : CacheState) (dh : Int) (bs : Int → Nat)
    (hstop : s.stop = false) (hu : ¬ cacheUsed s > cacheLimitBytes)
    (hcz : iterCount s.fetched_height dh s.ave_size ≠ 0) :
    cacheUsed (stepOp s (Op.fetch dh bs)) = cacheUsed s + fetchBatchBytes s dh bs := by
  have hsnd : ((fetchHeights s.fetched_height
        (iterCount s.fetched_height dh s.ave_size)).zip
      ((fetchHeights s.fetched_height
        (iterCount s.fetched_height dh s.ave_size)).map bs)).map Prod.snd =
      (fetchHeights s.fetched_height
        (iterCount s.fetched_height dh s.ave_size)).map bs :=
    List.map_snd_zip _ _ (by rw [List.length_map])
  simp only [stepOp, maybePrefillIter_round s dh bs hstop hu hcz]
  by_cases hnil : updateSizes s.recent_sizes
      ((fetchHeights s.fetched_height
        (iterCount s.fetched_height dh s.ave_size)).map bs) = []
  · rw [if_pos hnil]
    simp [cacheUsed, fetchBatchBytes, List.map_append, List.map_reverse, hsnd,
      List.sum_reverse, List.sum_append, Nat.add_comm]
  · rw [if_neg hnil]
    simp [cacheUsed, fetchBatchBytes, List.map_append, List.map_reverse, hsnd,
      List.sum_reverse, List.sum_append, Nat.add_comm]

theorem cacheUsed_step_bound (B : Nat) (s : CacheState) (op : Op)
    (hb : (match op with
           | Op.fetch dh bs => fetchBatchBytes s dh bs ≤ B
           | _ => True))
    (hinv : cacheUsed s ≤ cacheLimitBytes + B) :
    cacheUsed (stepOp s op) ≤ cacheLimitBytes + B := by
  cases op with
  | pop => exact le_trans (cacheUsed_pop_le s) hinv
  | signal => simp [stepOp, onSignal, cacheUsed]
  | fetch dh bs =>
    by_cases hst : s.stop = true
    · simpa [stepOp, maybePrefillIter_stop s dh bs hst] using hinv
    · have hstop : s.stop = false := by
        cases hs2 : s.stop
        · rfl
        · exact absurd hs2 hst
      by_cases hu : cacheUsed s > cacheLimitBytes
      · simpa [stepOp, maybePrefillIter_wait s dh bs hstop hu] using hinv
      · by_cases hcz : iterCount s.fetched_height dh s.ave_size = 0
        · simpa [stepOp, maybePrefillIter_done s dh bs hstop hu hcz] using hinv
        · rw [cacheUsed_fetch_round s dh bs hstop hu hcz]
          have hbb : fetchBatchBytes s dh bs ≤ B := hb
          omega

theorem cacheUsed_run_bound (B : Nat) :
    ∀ (ops : List Op) (s : CacheState),
      cacheUsed s ≤ cacheLimitBytes + B → batchesBounded B s ops = true →
      cacheUsed (run s ops) ≤ cacheLimitBytes + B := by
  intro ops
  induction ops with
  | nil => intro s h _; exact h
  | cons op rest ih =>
    intro s h hbb
    cases op with
    | fetch dh bs =>
      simp only [batchesBounded, Bool.and_eq_true] at hbb
      exact ih _ (cacheUsed_step_bound B s (Op.fetch dh bs)
        (of_decide_eq_true hbb.1) h) hbb.2
    | pop =>
      simp only [batchesBounded, Bool.and_eq_true, true_and] at hbb
      exact ih _ (cacheUsed_step_bound B s Op.pop trivial h) hbb
    | signal =>
      simp only [batchesBounded, Bool.and_eq_true, true_and] at hbb
      exact ih _ (cacheUsed_step_bound B s Op.signal trivial h) hbb

theorem maybePrefillAwaits_wait (s : CacheState) (dh : Int)
    (hstop : s.stop = false) (hu : cacheUsed s > cacheLimitBytes) :
    maybePrefillAwaits s dh = [] := by
  simp [maybePrefillAwaits, hstop, hu]

theorem stepOp_flushes (s : CacheState) (op : Op) :
    (stepOp s op).flushes = s.flushes := by
  cases op with
  | pop => rcases hbl : s.blocks.getLast? with _ | b <;> simp [stepOp, popStep, hbl]
  | signal => rfl
  | fetch dh bs =>
    by_cases hst : s.stop = true
    · simp [stepOp, maybePrefillIter_stop s dh bs hst]
    · have hstop : s.stop = false := by
        cases hs2 : s.stop
        · rfl
        · exact absurd hs2 hst
      by_cases hu : cacheUsed s > cacheLimitBytes
      · simp [stepOp, maybePrefillIter_wait s dh bs hstop hu]
      · by_cases hcz : iterCount s.fetched_height dh s.ave_size = 0
        · simp [stepOp, maybePrefillIter_done s dh bs hstop hu hcz]
        · simp only [stepOp, maybePrefillIter_round s dh bs hstop hu hcz]
          by_cases hnil : updateSizes s.recent_sizes
              ((fetchHeights s.fetched_height
                (iterCount s.fetched_height dh s.ave_size)).map bs) = []
          · rw [if_pos hnil]
          · rw [if_neg hnil]

theorem consumerRun_some (es : List Bool) :
    ∀ (s s2 : CacheState), consumerRun es s = some s2 →
      s2.flushes = s.flushes + 1 ∧ s2.stop = true := by
  induction es with
  | nil =>
    intro s s2 h
    simp only [consumerRun] at h
    split at h
    · next hs =>
      obtain rfl : flushS s = s2 := Option.some.inj h
      exact ⟨rfl, hs⟩
    · exact absurd h (by simp)
  | cons sig rest ih =>
    intro s s2 h
    simp only [consumerRun] at h
    split at h
    · next hs =>
      obtain rfl : flushS s = s2 := Option.some.inj h
      exact ⟨rfl, hs⟩
    · obtain ⟨hf, hstp⟩ := ih _ _ h
      refine ⟨?_, hstp⟩
      rw [hf]
      congr 1
      cases sig <;> rfl

theorem consumerRun_none (es : List Bool) :
    ∀ s : CacheState, s.stop = false → (∀ e ∈ es, e = false) →
      consumerRun es s = none := by
  induction es with
  | nil => intro s hs _; simp [consumerRun, hs]
  | cons sig rest ih =>
    intro s hs hall
    have hsig : sig = false := hall sig (by simp)
    simp only [consumerRun, hs, hsig, Bool.false_eq_true, if_false]
    exact ih _ hs fun e he => hall e (by simp [he])

theorem daemonFrom_some_spec {ρ : Type} (attempts : Nat → Option ρ) :
    ∀ fuel k r m, daemonFrom attempts k fuel = some (r, m) →
      k ≤ m ∧ m < k + fuel ∧ attempts m = some r ∧
      ∀ j, k ≤ j → j < m → attempts j = none := by
  intro fuel
  induction fuel with
  | zero => intro k r m h; simp [daemonFrom] at h
  | succ n ih =>
    intro k r m h
    rw [daemonFrom] at h
    cases hk : attempts k with
    | some r0 =>
      rw [hk] at h
      simp only [Option.some.injEq, Prod.mk.injEq] at h
      obtain ⟨h1, h2⟩ := h
      subst h1; subst h2
      exact ⟨le_refl _, by omega, hk, fun j hj hj2 => absurd hj (by omega)⟩
    | none =>
      rw [hk] at h
      obtain ⟨h1, h2, h3, h4⟩ := ih (k + 1) r m h
      refine ⟨by omega, by omega, h3, fun j hj hj2 => ?_⟩
      rcases Nat.eq_or_lt_of_le hj with heq | hlt
      · rw [← heq]; exact hk
      · exact h4 j hlt hj2

theorem daemonFrom_none_spec {ρ : Type} (attempts : Nat → Option ρ) :
    ∀ fuel k, daemonFrom attempts k fuel = none →
      ∀ j, k ≤ j → j < k + fuel → attempts j = none := by
  intro fuel
  induction fuel with
  | zero => intro k _ j hj hj2; omega
  | succ n ih =>
    intro k h j hj hj2
    rw [daemonFrom] at h
    cases hk : attempts k with
    | some r0 => rw [hk] at h; exact absurd h (by simp)
    | none =>
      rw [hk] at h
      rcases Nat.eq_or_lt_of_le hj with heq | hlt
      · rw [← heq]; exact hk
      · exact ih (k + 1) h j hlt (by omega)

end SMServer

namespace SMServer

/-! ## Claim theorems -/

/-- C1 (code_bug evidence): evaluation of one rpc_multi retry-loop pass.
On a five-element batch response where elements 1, 2, 4 and 5 succeed (error
field None) and element 3 carries error code -28, the error scan calls get
on the None error of element 1 and raises AttributeError: the batch is
neither returned nor retried, contradicting the claim that such a mixed
response is retried after the 10-second wait without raising.  The
error-free case (results in input order), the all-warm-up case (retry after
10) and the all-other-error case (retry after 0) behave as claimed. -/
theorem c1_rpc_multi_mixed_warmup_crashes :
    rpc_multi_step [⟨1, none⟩, ⟨2, none⟩, ⟨3, some ⟨some (-28)⟩⟩,
        ⟨4, none⟩, ⟨5, none⟩] = (RpcOutcome.crash : RpcOutcome Nat) ∧
    rpc_multi_step [⟨(1 : Nat), none⟩, ⟨2, none⟩, ⟨3, none⟩] =
      RpcOutcome.done [1, 2, 3] ∧
    rpc_multi_step [⟨(0 : Nat), some ⟨some (-28)⟩⟩, ⟨0, some ⟨some (-28)⟩⟩] =
      RpcOutcome.retry 10 ∧
    rpc_multi_step [⟨(0 : Nat), some ⟨some (-5)⟩⟩, ⟨0, some ⟨some (-1)⟩⟩] =
      RpcOutcome.retry 0 := by
  decide

/-- C9: prefill_count returns at least 10 for every room and every state of
the average (0 encodes that no average is known yet, as in the source where
ave_size starts at 0 and is tested for truthiness); when an average is
known the result is exactly max(10, room / average) with integer division. -/
theorem c9_prefill_count_floor (ave room : Nat) :
    10 ≤ prefill_count ave room ∧
    (ave ≠ 0 → prefill_count ave room = max 10 (room / ave)) := by
  constructor
  · simp only [prefill_count]; omega
  · intro h; simp [prefill_count, h, Nat.max_comm]

/-- C9 witness: concrete instances of both conjuncts, with the hypothesis of
the second discharged at a non-zero average. -/
theorem c9_prefill_count_floor_witness :
    10 ≤ prefill_count 0 0 ∧ prefill_count 3 100 = max 10 (100 / 3) :=
  ⟨(c9_prefill_count_floor 0 0).1, (c9_prefill_count_floor 3 100).2 (by decide)⟩

/-- C10: the daemon call never surfaces a transport error: every attempt
resends the identical payload; when a run returns, it returns the parsed
response of the first successful attempt, and the k failed attempts before
it each slept the fixed 1-second backoff (the second component counts
exactly those backoffs); when it has not returned within the observation
horizon, every attempt so far failed — there is no error outcome. -/
theorem c10_daemon_retries_forever {π ρ : Type} (transport : π → Nat → Option ρ)
    (payload : π) (fuel : Nat) :
    (∀ r k, daemonRun transport payload fuel = some (r, k) →
      transport payload k = some r ∧ (∀ j, j < k → transport payload j = none) ∧
        k < fuel) ∧
    (daemonRun transport payload fuel = none →
      ∀ j, j < fuel → transport payload j = none) := by
  constructor
  · intro r k h
    obtain ⟨h1, h2, h3, h4⟩ := daemonFrom_some_spec (transport payload) fuel 0 r k h
    exact ⟨h3, fun j hj => h4 j (Nat.zero_le j) hj, by omega⟩
  · intro h j hj
    exact daemonFrom_none_spec (transport payload) fuel 0 h j (Nat.zero_le j) (by omega)

/-- C3 counterexample: a round taken with occupancy 5242880 bytes (one
buffered block), average size 500000 and a far-away daemon tip.  The claim
formula with remaining room 10485760 - 5242880 gives a count of 10, but the
source passes the full cache_limit to prefill_count (line 119) and fetches
20 blocks: the completed round advances fetched_height from 0 to 20. -/
theorem c3_counterexample :
    iterCount 0 100000 500000 = 20 ∧
    specRoundCount 100000 0 500000
      (cacheUsed { stop := false, daemon_height := 0, fetched_height := 0,
                   blocks := [(0, 5242880)], recent_sizes := [500000],
                   ave_size := 500000, processed := [], flushes := 0 }) = 10 ∧
    (match maybePrefillIter
        { stop := false, daemon_height := 0, fetched_height := 0,
          blocks := [(0, 5242880)], recent_sizes := [500000],
          ave_size := 500000, processed := [], flushes := 0 } 100000
        (fun _ => 500000) with
      | .next s2 => s2.fetched_height
      | _ => 0) = 20 ∧
    (20 : Int) ≠ 10 := by
  refine ⟨by decide, by decide, ?_, by decide⟩
  decide

/-- C3 (amended): the per-round fetch count equals
min(daemon_height - fetched_height, 4000, prefill_count(cache_limit)),
where prefill_count receives the full cache byte limit independent of the
current occupancy — not the remaining room; prefill_count itself is
max(10, room / average) when an average is known, else 10. -/
theorem c3_round_count (fh dh : Int) (ave room : Nat) :
    iterCount fh dh ave =
      min (dh - fh) (min 4000 ((prefill_count ave cacheLimitBytes : Nat) : Int)) ∧
    prefill_count 0 room = 10 ∧
    (ave ≠ 0 → prefill_count ave room = max 10 (room / ave)) := by
  refine ⟨by simp [iterCount, min_assoc], by simp [prefill_count], fun h => ?_⟩
  simp [prefill_count, h, Nat.max_comm]

/-- C3 witness: concrete instances with the known-average hypothesis of the
last conjunct discharged. -/
theorem c3_round_count_witness :
    iterCount 7 5000 0 =
      min ((5000 : Int) - 7) (min 4000 ((prefill_count 0 cacheLimitBytes : Nat) : Int)) ∧
    prefill_count 0 12 = 10 ∧
    prefill_count 4 12 = max 10 (12 / 4) :=
  ⟨(c3_round_count 7 5000 0 12).1, (c3_round_count 7 5000 0 12).2.1,
    (c3_round_count 7 5000 4 12).2.2 (by decide)⟩

/-- C4 counterexample: a round from fetched_height 100 with daemon tip 150
and no size history computes count 10; the claim says the state in flight
during the getblock batch already has fetched_height 110, but the recorded
in-flight state during that call still has the pre-round value 100, because
the advance stands after the block batch resolves (line 133). -/
theorem c4_counterexample :
    iterCount 100 150 0 = 10 ∧
    (maybePrefillAwaits
        { stop := false, daemon_height := 0, fetched_height := 100,
          blocks := [], recent_sizes := [], ave_size := 0,
          processed := [], flushes := 0 } 150).map
      (fun p => (p.1, p.2.fetched_height)) =
      [(Await.getblockcount, 100), (Await.hashBatch, 100),
        (Await.blockBatch, 100)] ∧
    (100 : Int) ≠ 100 + 10 := by
  refine ⟨by decide, ?_, by decide⟩
  decide

/-- C4 (amended): fetched_height is advanced by count only after the block
batch call resolves: the state visible to a concurrent task while any of
the awaited calls of the round is in flight — the block batch included —
still carries the pre-round fetched_height, and the post-round state (also
the state at the ZeroDivisionError) carries fetched_height + count. -/
theorem c4_advance_after_block_batch (s : CacheState) (dh : Int) (bs : Int → Nat) :
    (∀ p ∈ maybePrefillAwaits s dh, p.2.fetched_height = s.fetched_height) ∧
    (∀ s2, maybePrefillIter s dh bs = .next s2 ∨
        maybePrefillIter s dh bs = .crash s2 →
      s2.fetched_height = s.fetched_height + iterCount s.fetched_height dh s.ave_size) := by
  constructor
  · intro p hp
    simp only [maybePrefillAwaits] at hp
    split at hp
    · simp at hp
    · split at hp
      · simp at hp
      · simp only [List.mem_cons] at hp
        rcases hp with rfl | hp
        · rfl
        · split at hp
          · simp at hp
          · simp only [List.mem_cons, List.mem_singleton, List.not_mem_nil,
              or_false] at hp
            rcases hp with rfl | rfl <;> rfl
  · intro s2 h12
    simp only [maybePrefillIter] at h12
    split at h12
    · rcases h12 with h | h <;> simp at h
    · split at h12
      · rcases h12 with h | h <;> simp at h
      · split at h12
        · rcases h12 with h | h <;> simp at h
        · split at h12
          · rcases h12 with h | h
            · simp at h
            · simp only [PrefillResult.crash.injEq] at h
              subst h
              rfl
          · rcases h12 with h | h
            · simp only [PrefillResult.next.injEq] at h
              subst h
              rfl
            · simp at h

/-- C7: when the fetch-count computation is reached (stop flag clear,
occupancy within the limit) with the daemon tip strictly below
fetched_height, the count is strictly negative, so the guard of line 120 —
which only catches a count of exactly zero — does not end the round; the
requested height range is empty; and the round then moves fetched_height
down to the daemon height and, when the size window is empty at that point,
raises ZeroDivisionError at the average recomputation of line 149. -/
theorem c7_negative_count_round (s : CacheState) (dh : Int) (bs : Int → Nat)
    (hstop : s.stop = false) (hused : cacheUsed s ≤ cacheLimitBytes)
    (hdh : dh < s.fetched_height) :
    iterCount s.fetched_height dh s.ave_size < 0 ∧
    iterCount s.fetched_height dh s.ave_size ≠ 0 ∧
    fetchHeights s.fetched_height (iterCount s.fetched_height dh s.ave_size) = [] ∧
    (s.recent_sizes = [] →
      maybePrefillIter s dh bs =
        .crash { s with daemon_height := dh, fetched_height := dh }) ∧
    (s.recent_sizes ≠ [] →
      maybePrefillIter s dh bs =
        .next { s with daemon_height := dh, fetched_height := dh,
                       recent_sizes := updateSizes s.recent_sizes [],
                       ave_size := (updateSizes s.recent_sizes []).sum /
                         (updateSizes s.recent_sizes []).length }) := by
  obtain ⟨st, dh0, fh, bl, rs, av, pr, fl⟩ := s
  dsimp only at hstop hused hdh ⊢
  subst hstop
  have h10 : (10 : Int) ≤ (prefill_count av cacheLimitBytes : Int) := by
    exact_mod_cast prefill_count_ge_ten av cacheLimitBytes
  have hcount : iterCount fh dh av = dh - fh := by
    simp only [iterCount]
    omega
  have htn : (dh - fh).toNat = 0 := Int.toNat_of_nonpos (by omega)
  refine ⟨by omega, by omega, ?_, ?_, ?_⟩
  · simp only [fetchHeights, hcount, htn]
    rfl
  · intro hrs
    subst hrs
    simp [maybePrefillIter, hcount, show ¬ (dh - fh = 0) by omega,
      show ¬ cacheUsed ⟨false, dh0, fh, bl, [], av, pr, fl⟩ > cacheLimitBytes from by omega,
      fetchHeights, htn, intRange, updateSizes]
  · intro hrs
    simp [maybePrefillIter, hcount, show ¬ (dh - fh = 0) by omega,
      show ¬ cacheUsed ⟨false, dh0, fh, bl, rs, av, pr, fl⟩ > cacheLimitBytes from by omega,
      fetchHeights, htn, intRange,
      updateSizes_ne_nil rs [] (by simp [hrs])]

/-- C7 witness: a state at fetched_height 5 with an empty size window and an
empty buffer, against a daemon tip of 3: the count is -2, no heights are
requested, and the round dies in the ZeroDivisionError with fetched_height
moved down to 3. -/
theorem c7_negative_count_round_witness :
    iterCount 5 3 0 < 0 ∧
    iterCount 5 3 0 ≠ 0 ∧
    fetchHeights 5 (iterCount 5 3 0) = [] ∧
    (([] : List Nat) = [] →
      maybePrefillIter
        { stop := false, daemon_height := 0, fetched_height := 5, blocks := [],
          recent_sizes := [], ave_size := 0, processed := [], flushes := 0 } 3
        (fun _ => 1) =
      .crash { stop := false, daemon_height := 3, fetched_height := 3,
               blocks := [], recent_sizes := [], ave_size := 0,
               processed := [], flushes := 0 }) ∧
    (([] : List Nat) ≠ [] →
      maybePrefillIter
        { stop := false, daemon_height := 0, fetched_height := 5, blocks := [],
          recent_sizes := [], ave_size := 0, processed := [], flushes := 0 } 3
        (fun _ => 1) =
      .next { stop := false, daemon_height := 3, fetched_height := 3,
              blocks := [], recent_sizes := updateSizes [] [],
              ave_size := (updateSizes [] []).sum / (updateSizes [] []).length,
              processed := [], flushes := 0 }) :=
  c7_negative_count_round
    { stop := false, daemon_height := 0, fetched_height := 5, blocks := [],
      recent_sizes := [], ave_size := 0, processed := [], flushes := 0 } 3
    (fun _ => 1) (by decide) (by decide) (by decide)

/-- C4 witness: the amended statement instantiated at a concrete round. -/
theorem c4_advance_after_block_batch_witness :
    (∀ p ∈ maybePrefillAwaits
        { stop := false, daemon_height := 0, fetched_height := 100,
          blocks := [], recent_sizes := [], ave_size := 0,
          processed := [], flushes := 0 } 150,
      p.2.fetched_height =
        ({ stop := false, daemon_height := 0, fetched_height := 100,
           blocks := [], recent_sizes := [], ave_size := 0,
           processed := [], flushes := 0 } : CacheState).fetched_height) ∧
    (∀ s2, maybePrefillIter
        { stop := false, daemon_height := 0, fetched_height := 100,
          blocks := [], recent_sizes := [], ave_size := 0,
          processed := [], flushes := 0 } 150 (fun _ => 7) =
          PrefillResult.next s2 ∨
      maybePrefillIter
        { stop := false, daemon_height := 0, fetched_height := 100,
          blocks := [], recent_sizes := [], ave_size := 0,
          processed := [], flushes := 0 } 150 (fun _ => 7) =
          PrefillResult.crash s2 →
      s2.fetched_height =
        ({ stop := false, daemon_height := 0, fetched_height := 100,
           blocks := [], recent_sizes := [], ave_size := 0,
           processed := [], flushes := 0 } : CacheState).fetched_height +
          iterCount 100 150 0) :=
  c4_advance_after_block_batch
    { stop := false, daemon_height := 0, fetched_height := 100,
      blocks := [], recent_sizes := [], ave_size := 0,
      processed := [], flushes := 0 } 150 (fun _ => 7)

/-- C2: for every interleaving of completed producer fetch rounds, consumer
pops and signal deliveries in which each fetch observes a daemon tip at or
above the current fetched_height (the stated precondition that new batches
lie above anything cached), the buffer invariant holds at every reachable
state: the buffered heights form a strictly descending consecutive range
whose head is fetched_height and whose tail sits directly above the
processed range while running (each round prepends its whole reversed batch
in one step, the consumer always removes the tail), and the heights handed
to the processor form the strictly ascending consecutive range starting
just above the initial db height. -/
theorem c2_buffer_invariant (h0 : Int) (ops : List Op)
    (hf : fetchesAhead (initState h0) ops = true) :
    BufInv h0 (run (initState h0) ops) := by
  apply bufInv_run h0 ops (initState h0) ?_ hf
  refine ⟨rfl, rfl, ?_, ?_⟩
  · intro _
    simp [initState]
  · intro ht
    simp [initState] at ht

/-- C2 witness: one fetch round of three blocks from height 0 against tip 3,
two pops and a signal. -/
theorem c2_buffer_invariant_witness :
    BufInv 0 (run (initState 0)
      [Op.fetch 3 (fun _ => 5), Op.pop, Op.pop, Op.signal]) :=
  c2_buffer_invariant 0 [Op.fetch 3 (fun _ => 5), Op.pop, Op.pop, Op.signal]
    (by decide)

/-- C5: whenever the producer observes buffer occupancy above the cache byte
limit with the stop flag clear, the iteration returns the wait signal and
issues no awaited call at all; and along every run whose fetch rounds each
add at most B bytes, the occupancy never exceeds the limit by more than B —
one fetched batch of bytes. -/
theorem c5_backpressure (h0 : Int) (B : Nat) (ops : List Op)
    (hb : batchesBounded B (initState h0) ops = true) :
    cacheUsed (run (initState h0) ops) ≤ cacheLimitBytes + B ∧
    (∀ (s : CacheState) (dh : Int) (bs : Int → Nat),
      s.stop = false → cacheUsed s > cacheLimitBytes →
      maybePrefillIter s dh bs = PrefillResult.wait ∧
        maybePrefillAwaits s dh = []) := by
  refine ⟨cacheUsed_run_bound B ops (initState h0) ?_ hb, ?_⟩
  · simp [initState, cacheUsed]
  · intro s dh bs hstop hu
    exact ⟨maybePrefillIter_wait s dh bs hstop hu,
      maybePrefillAwaits_wait s dh hstop hu⟩

/-- C5 witness: a run whose single fetch round adds 15 bytes, bounded by
B = 100. -/
theorem c5_backpressure_witness :
    cacheUsed (run (initState 0) [Op.fetch 3 (fun _ => 5), Op.pop]) ≤
      cacheLimitBytes + 100 ∧
    (∀ (s : CacheState) (dh : Int) (bs : Int → Nat),
      s.stop = false → cacheUsed s > cacheLimitBytes →
      maybePrefillIter s dh bs = PrefillResult.wait ∧
        maybePrefillAwaits s dh = []) :=
  c5_backpressure 0 100 [Op.fetch 3 (fun _ => 5), Op.pop] (by decide)

/-- C6: the signal handler sets the stop flag and empties the buffer in the
same step; once the flag is set the consumer loop exits at its next
checkpoint returning flush applied to the state as it stands; every
terminating consumer run performs exactly one flush, and only terminates
with the flag set; a run that never sees the flag set and receives no
signal does not terminate and so never flushes; and no producer fetch
round, pop or signal ever invokes flush. -/
theorem c6_shutdown_flush (s : CacheState) (es : List Bool) (op : Op) :
    ((onSignal s).stop = true ∧ (onSignal s).blocks = []) ∧
    (s.stop = true → consumerRun es s = some (flushS s)) ∧
    (∀ s2, consumerRun es s = some s2 →
      s2.flushes = s.flushes + 1 ∧ s2.stop = true) ∧
    (s.stop = false → (∀ e ∈ es, e = false) → consumerRun es s = none) ∧
    (stepOp s op).flushes = s.flushes := by
  refine ⟨⟨rfl, rfl⟩, ?_, fun s2 h => consumerRun_some es s s2 h,
    consumerRun_none es s, stepOp_flushes s op⟩
  intro hs
  cases es <;> simp [consumerRun, hs]

/-- C6 witness: instantiated at a running state, a one-entry schedule and a
pop step. -/
theorem c6_shutdown_flush_witness :
    ((onSignal (initState 0)).stop = true ∧ (onSignal (initState 0)).blocks = []) ∧
    ((initState 0).stop = true →
      consumerRun [true] (initState 0) = some (flushS (initState 0))) ∧
    (∀ s2, consumerRun [true] (initState 0) = some s2 →
      s2.flushes = (initState 0).flushes + 1 ∧ s2.stop = true) ∧
    ((initState 0).stop = false → (∀ e ∈ [true], e = false) →
      consumerRun [true] (initState 0) = none) ∧
    (stepOp (initState 0) Op.pop).flushes = (initState 0).flushes :=
  c6_shutdown_flush (initState 0) [true] Op.pop

/-- C8: feeding the size window the per-round batches of block byte lengths
(each round performs the extend-and-trim of lines 145-148, embedded as
updateSizes), once more than 50 sizes have been fed in total the window
holds exactly the most recent 50 of them, and the integer-truncated average
the source computes over the window (line 149) equals the integer-truncated
mean of those most recent 50 sizes only. -/
theorem c8_rolling_average_window (batches : List (List Nat))
    (h : 50 < batches.flatten.length) :
    batches.foldl updateSizes [] =
      batches.flatten.drop (batches.flatten.length - 50) ∧
    (batches.foldl updateSizes []).length = 50 ∧
    (batches.foldl updateSizes []).sum / (batches.foldl updateSizes []).length =
      (batches.flatten.drop (batches.flatten.length - 50)).sum / 50 := by
  have h0 := foldl_updateSizes batches []
  rw [show lastFifty [] = [] from rfl, List.nil_append] at h0
  have h1 : batches.foldl updateSizes [] =
      batches.flatten.drop (batches.flatten.length - 50) := h0
  have h2 : (batches.foldl updateSizes []).length = 50 := by
    rw [h1, List.length_drop]; omega
  exact ⟨h1, h2, by rw [h1] at h2 ⊢; rw [h2]⟩

/-- C8 witness: 51 sizes fed across two rounds of 30 and 21; the window is
the most recent 50 and the average is their truncated mean. -/
theorem c8_rolling_average_window_witness :
    [List.replicate 30 2, List.replicate 21 8].foldl updateSizes [] =
      ([List.replicate 30 2, List.replicate 21 8].flatten).drop
        (([List.replicate 30 2, List.replicate 21 8].flatten).length - 50) ∧
    ([List.replicate 30 2, List.replicate 21 8].foldl updateSizes []).length = 50 ∧
    ([List.replicate 30 2, List.replicate 21 8].foldl updateSizes []).sum /
        ([List.replicate 30 2, List.replicate 21 8].foldl updateSizes []).length =
      (([List.replicate 30 2, List.replicate 21 8].flatten).drop
        (([List.replicate 30 2, List.replicate 21 8].flatten).length - 50)).sum / 50 :=
  c8_rolling_average_window [List.replicate 30 2, List.replicate 21 8] (by decide)

/-- C10 witness: a transport that fails twice and succeeds on the third
attempt; the run returns the third attempt with two backoffs slept. -/
theorem c10_daemon_retries_forever_witness :
    (fun (_ : Unit) (k : Nat) => if k = 2 then some (42 : Nat) else none) () 2 =
        some 42 ∧
    (∀ j, j < 2 →
      (fun (_ : Unit) (k : Nat) => if k = 2 then some (42 : Nat) else none) () j =
        none) ∧ 2 < 5 :=
  (c10_daemon_retries_forever
      (fun (_ : Unit) (k : Nat) => if k = 2 then some (42 : Nat) else none)
      () 5).1 42 2 (by decide)

end SMServer
